import Mathlib

set_option maxHeartbeats 1000000
set_option maxRecDepth 8000

/-
  Shallow embedding of the cross-chain atomic-swap escrow engine
  (`fusion_polkadot_escrow/lib.rs`).  Machine integers are modelled as `Nat`
  with explicit bound checks at the widths the source uses (`u128` balances,
  `u64` timestamps and nonces).  32-byte digests, account ids and 20-byte
  addresses are modelled as `Nat`.  The ambient chain environment (caller,
  block timestamp, transferred value, the Blake2x256 hash and the outcome of
  native transfers) is an explicit `Env` record.  Each contract message is a
  function `Env → EscrowState → Except Error (EscrowState × transfers)`;
  the platform reverts all state changes when a message returns an error,
  which `run` makes explicit.
-/

namespace Fpe

abbrev AccountId := Nat
abbrev Balance := Nat
abbrev Timestamp := Nat
abbrev Digest := Nat
abbrev EthAddress := Nat

def U128 : Nat := 2 ^ 128

def U64 : Nat := 2 ^ 64

/-- u128 `checked_add`. -/
def checkedAdd128 (a b : Nat) : Option Nat :=
  if a + b < U128 then some (a + b) else none

/-- unsigned `checked_sub` (any width). -/
def checkedSub (a b : Nat) : Option Nat :=
  if b ≤ a then some (a - b) else none

/-- u128 `checked_mul`. -/
def checkedMul128 (a b : Nat) : Option Nat :=
  if a * b < U128 then some (a * b) else none

/-- u64 `checked_add`. -/
def checkedAdd64 (a b : Nat) : Option Nat :=
  if a + b < U64 then some (a + b) else none

/-- u64 `saturating_add`. -/
def satAdd64 (a b : Nat) : Nat := min (a + b) (U64 - 1)

/-- Persistent mapping with `Nat` keys (models `ink::storage::Mapping`). -/
def Map (β : Type) : Type := Nat → Option β

def Map.empty {β : Type} : Map β := fun _ => none

def Map.get {β : Type} (m : Map β) (k : Nat) : Option β := m k

def Map.insert {β : Type} (m : Map β) (k : Nat) (v : β) : Map β :=
  fun q => if q = k then some v else m q

def Map.remove {β : Type} (m : Map β) (k : Nat) : Map β :=
  fun q => if q = k then none else m q

def Map.contains {β : Type} (m : Map β) (k : Nat) : Bool :=
  (m k).isSome

-- --- Core types, mirroring the Rust declarations ---

inductive SwapDirection
  | EthereumToPolkadot
  | PolkadotToEthereum
deriving DecidableEq

inductive OrderStatus
  | Pending
  | Locked
  | PartialFill
  | Executed
  | Cancelled
  | Refunded
deriving DecidableEq

structure TimeLocks where
  fill_deadline : Timestamp
  private_cancellation : Timestamp
deriving DecidableEq

structure HashLockInfo where
  hash_lock : Digest
  secret : Option Nat
deriving DecidableEq

structure EthereumEscrowInfo where
  escrow_address : EthAddress
  tx_hash : Option Digest
  block_number : Option Nat
deriving DecidableEq

structure FusionOrder where
  order_hash : Digest
  maker : AccountId
  taker : Option AccountId
  src_token : AccountId
  dst_token : EthAddress
  src_amount : Balance
  dst_amount : Balance
  direction : SwapDirection
  ethereum_escrow : Option EthereumEscrowInfo
  hash_lock_info : HashLockInfo
  time_locks : TimeLocks
  status : OrderStatus
  filled_amount : Balance
  safety_deposit : Balance
  resolver : Option AccountId
  resolver_fee : Balance
  created_at : Timestamp
deriving DecidableEq

structure CreateOrderParams where
  direction : SwapDirection
  src_token : AccountId
  dst_token : EthAddress
  src_amount : Balance
  min_dst_amount : Balance
  fill_deadline : Timestamp
  ethereum_recipient : EthAddress
  max_resolver_fee : Balance
deriving DecidableEq

structure ResolverParams where
  resolver : AccountId
  hash_lock : Digest
  ethereum_escrow_address : EthAddress
  resolver_fee : Balance
deriving DecidableEq

structure EscrowImmutables where
  order_hash : Digest
  hash_lock : Digest
  maker : AccountId
  taker : AccountId
  token : AccountId
  amount : Balance
  safety_deposit : Balance
  timelocks : TimeLocks
  deployed_at : Option Timestamp
deriving DecidableEq

inductive CancelReason
  | MakerCancellation
  | TimelockExpired
  | ResolverTimeout
  | EmergencyStop
deriving DecidableEq

inductive Error
  | OrderNotFound
  | OrderAlreadyExists
  | InvalidOrderStatus
  | InvalidOrderHash
  | Unauthorized
  | OnlyMaker
  | OnlyResolver
  | OnlyOwner
  | DeadlineExpired
  | TimelockNotExpired
  | PrivateCancellationExpired
  | InvalidSecret
  | InvalidHashLock
  | HashLockAlreadyUsed
  | InvalidImmutables
  | InsufficientFunds
  | InsufficientDeposit
  | InvalidAmount
  | ContractPaused
  | ArithmeticOverflow
  | TransferFailed
  | NativeTokenSendingFailure
  | EthereumEscrowNotSet
  | InvalidEthereumAddress
  | UnsupportedDirection
  | EscrowNotFound
  | LengthMismatch
  | InvalidLength
deriving DecidableEq

/-- The contract storage (`FusionPolkadotEscrow` struct). -/
structure EscrowState where
  orders : Map FusionOrder
  active_hash_locks : Map Digest
  escrow_addresses : Map AccountId
  owner : AccountId
  paused : Bool
  protocol_fee_bps : Nat
  min_safety_deposit : Balance
  approved_resolvers : Map Bool
  resolver_stakes : Map Balance
  ethereum_resolver : EthAddress
  trusted_relayers : Map Bool
  ethereum_chain_id : Nat
  order_nonce : Nat
  total_volume : Balance
  total_escrows_created : Nat

/-- The chain environment a message executes in: `env().caller()`,
`env().block_timestamp()`, `env().transferred_value()`, the Blake2x256 hash
over encoded bytes, and the success oracle for `env().transfer`. -/
structure Env where
  caller : AccountId
  now : Timestamp
  transferred : Balance
  hashBytes : List Nat → Digest
  transferOk : AccountId → Balance → Bool

/-- SCALE encoding of a bare 32-byte secret (the byte strings fed to the
hash have pairwise distinct shapes, modelled by a leading tag). -/
def encodeSecret (s : Nat) : List Nat := [0, s]

/-- SCALE encoding of the order-hash preimage tuple built in `create_order`. -/
def encodeOrderData (maker src_token : AccountId) (dst_token : EthAddress)
    (src_amount min_dst_amount : Balance) (fill_deadline : Timestamp)
    (nonce : Nat) (created_at : Timestamp) : List Nat :=
  [1, maker, src_token, dst_token, src_amount, min_dst_amount, fill_deadline,
    nonce, created_at]

/-- SCALE encoding of the escrow-address seed tuple built in
`compute_escrow_address`. -/
def encodeSeed (order_hash hash_lock : Digest) (maker taker : AccountId)
    (amount : Balance) (deployed_at : Timestamp) : List Nat :=
  [2, order_hash, hash_lock, maker, taker, amount, deployed_at]

/-- Constructor `new`. -/
def initState (deployer : AccountId) (protocol_fee_bps : Nat)
    (min_safety_deposit : Balance) (ethereum_chain_id : Nat)
    (ethereum_resolver : EthAddress) : EscrowState where
  orders := Map.empty
  active_hash_locks := Map.empty
  escrow_addresses := Map.empty
  owner := deployer
  paused := false
  protocol_fee_bps := protocol_fee_bps
  min_safety_deposit := min_safety_deposit
  approved_resolvers := Map.empty
  resolver_stakes := Map.empty
  ethereum_resolver := ethereum_resolver
  trusted_relayers := Map.empty
  ethereum_chain_id := ethereum_chain_id
  order_nonce := 0
  total_volume := 0
  total_escrows_created := 0

-- --- Helper functions ---

/-- Models `ensure_owner`. -/
def ensureOwner (env : Env) (s : EscrowState) : Except Error Unit :=
  if env.caller ≠ s.owner then .error .OnlyOwner else .ok ()

/-- Models `calculate_protocol_fee`: `amount.checked_mul(bps).checked_div(10000)`;
division by the nonzero constant 10000 never fails, so only the
multiplication can overflow. -/
def calculateProtocolFee (s : EscrowState) (amount : Balance) :
    Except Error Balance :=
  match checkedMul128 amount s.protocol_fee_bps with
  | some v => .ok (v / 10000)
  | none => .error .ArithmeticOverflow

/-- Models `compute_escrow_address`: Blake2x256 over the encoded
`(order_hash, hash_lock, maker, taker, amount, deployed_at.unwrap_or(0))`
seed; the result is reinterpreted as an `AccountId`. -/
def computeEscrowAddress (env : Env) (imm : EscrowImmutables) :
    Except Error AccountId :=
  .ok (env.hashBytes (encodeSeed imm.order_hash imm.hash_lock imm.maker
    imm.taker imm.amount (imm.deployed_at.getD 0)))

/-- Models `check_withdrawal_timelock`. -/
def checkWithdrawalTimelock (order : FusionOrder) (current_time : Timestamp) :
    Except Error Unit :=
  if current_time ≤ order.time_locks.fill_deadline then .ok ()
  else .error .DeadlineExpired

/-- Models `check_cancellation_timelock`. -/
def checkCancellationTimelock (order : FusionOrder)
    (current_time : Timestamp) : Except Error Unit :=
  if order.time_locks.private_cancellation < current_time ∨
      order.time_locks.fill_deadline < current_time then .ok ()
  else .error .TimelockNotExpired

/-- The `(can_cancel, reason)` decision computed inside `cancel_order`. -/
def cancelDecision (order : FusionOrder) (caller : AccountId)
    (current_time : Timestamp) : Bool × CancelReason :=
  match order.status with
  | .Pending =>
      if caller = order.maker ∧
          current_time ≤ order.time_locks.private_cancellation then
        (true, .MakerCancellation)
      else
        (false, .MakerCancellation)
  | .Locked =>
      if order.time_locks.fill_deadline < current_time then
        (true, .TimelockExpired)
      else if caller = order.maker then
        (true, .MakerCancellation)
      else
        (false, .ResolverTimeout)
  | .PartialFill =>
      if order.time_locks.fill_deadline < current_time then
        (true, .TimelockExpired)
      else if caller = order.maker then
        (true, .MakerCancellation)
      else
        (false, .ResolverTimeout)
  | _ => (false, .EmergencyStop)

-- --- Messages ---

/-- A native transfer together with its recipient; the second component of a
message result lists the payouts the committed operation performed. -/
abbrev Transfers := List (AccountId × Balance)

abbrev MsgResult := Except Error (EscrowState × Transfers)

/-- Models `set_paused`. -/
def setPaused (env : Env) (s : EscrowState) (p : Bool) : MsgResult :=
  match ensureOwner env s with
  | .error e => .error e
  | .ok _ => .ok ({ s with paused := p }, [])

/-- Models `approve_resolver`. -/
def approveResolver (env : Env) (s : EscrowState) (r : AccountId) : MsgResult :=
  match ensureOwner env s with
  | .error e => .error e
  | .ok _ => .ok ({ s with approved_resolvers := s.approved_resolvers.insert r true }, [])

/-- Models `add_trusted_relayer`. -/
def addTrustedRelayer (env : Env) (s : EscrowState) (r : AccountId) : MsgResult :=
  match ensureOwner env s with
  | .error e => .error e
  | .ok _ => .ok ({ s with trusted_relayers := s.trusted_relayers.insert r true }, [])

/-- Models `transfer_ownership`. -/
def transferOwnership (env : Env) (s : EscrowState) (o : AccountId) : MsgResult :=
  match ensureOwner env s with
  | .error e => .error e
  | .ok _ => .ok ({ s with owner := o }, [])

/-- The order hash computed inside `create_order`: Blake2x256 over the
encoded `(caller, src_token, dst_token, src_amount, min_dst_amount,
fill_deadline, nonce, created_at)` tuple. -/
def orderHashOf (env : Env) (s : EscrowState) (params : CreateOrderParams) :
    Digest :=
  env.hashBytes (encodeOrderData env.caller params.src_token params.dst_token
    params.src_amount params.min_dst_amount params.fill_deadline
    s.order_nonce env.now)

/-- The fresh order record built by `create_order`. -/
def newOrder (env : Env) (s : EscrowState) (params : CreateOrderParams)
    (pc : Timestamp) : FusionOrder where
  order_hash := orderHashOf env s params
  maker := env.caller
  taker := none
  src_token := params.src_token
  dst_token := params.dst_token
  src_amount := params.src_amount
  dst_amount := params.min_dst_amount
  direction := params.direction
  ethereum_escrow := none
  hash_lock_info := { hash_lock := 0, secret := none }
  time_locks := { fill_deadline := params.fill_deadline
                  private_cancellation := pc }
  status := .Pending
  filled_amount := 0
  safety_deposit := 0
  resolver := none
  resolver_fee := params.max_resolver_fee
  created_at := env.now

/-- Models `create_order`. -/
def createOrder (env : Env) (s : EscrowState) (params : CreateOrderParams) :
    MsgResult :=
  if s.paused then .error .ContractPaused
  else if params.fill_deadline ≤ env.now then .error .DeadlineExpired
  else if env.transferred < params.src_amount then .error .InsufficientFunds
  else
    match checkedAdd64 env.now (30 * 60 * 1000) with
    | none => .error .ArithmeticOverflow
    | some private_cancellation =>
      if s.orders.contains (orderHashOf env s params) then
        .error .OrderAlreadyExists
      else
        match checkedAdd64 s.order_nonce 1 with
        | none => .error .ArithmeticOverflow
        | some nonce' =>
          .ok ({ s with
            orders := s.orders.insert (orderHashOf env s params)
              (newOrder env s params private_cancellation)
            order_nonce := nonce' }, [])

/-- Models `deploy_src`: locks a `Pending` order behind the caller-supplied
immutables; note that it inserts the hash lock into `active_hash_locks`
without checking the index first. -/
def deploySrc (env : Env) (s : EscrowState) (immutables : EscrowImmutables)
    (order_hash : Digest) : MsgResult :=
  if s.paused then .error .ContractPaused
  else
    let safety_deposit := env.transferred
    if safety_deposit < s.min_safety_deposit then .error .InsufficientDeposit
    else
      match s.orders.get order_hash with
      | none => .error .OrderNotFound
      | some order =>
        if order.status ≠ .Pending then .error .InvalidOrderStatus
        else
          let imm_mem := { immutables with deployed_at := some env.now
                                           safety_deposit := safety_deposit }
          match computeEscrowAddress env imm_mem with
          | .error e => .error e
          | .ok escrow_address =>
            let order' := { order with
              status := .Locked
              safety_deposit := safety_deposit
              hash_lock_info := { order.hash_lock_info with
                                  hash_lock := immutables.hash_lock }
              resolver := some immutables.taker }
            .ok ({ s with
              orders := s.orders.insert order_hash order'
              escrow_addresses := s.escrow_addresses.insert order_hash escrow_address
              active_hash_locks := s.active_hash_locks.insert immutables.hash_lock order_hash
              total_escrows_created := satAdd64 s.total_escrows_created 1 }, [])

/-- The all-zero placeholder record `deploy_dst` stores: a zero 20-byte
escrow address and no transaction hash or block number. -/
def sentinelEscrow : EthereumEscrowInfo where
  escrow_address := 0
  tx_hash := none
  block_number := none

/-- Models `deploy_dst`: stores the destination escrow handle; the order's
`ethereum_escrow` is set to the all-zero sentinel. -/
def deployDst (env : Env) (s : EscrowState) (dst_immutables : EscrowImmutables)
    (_src_cancellation_timestamp : Timestamp) : MsgResult :=
  if s.paused then .error .ContractPaused
  else
    let order_hash := dst_immutables.order_hash
    match s.orders.get order_hash with
    | none => .error .OrderNotFound
    | some order =>
      match computeEscrowAddress env dst_immutables with
      | .error e => .error e
      | .ok escrow_address =>
        let order' := { order with ethereum_escrow := some sentinelEscrow }
        .ok ({ s with
          orders := s.orders.insert order_hash order'
          escrow_addresses := s.escrow_addresses.insert order_hash escrow_address }, [])

/-- Models `deploy_escrow` (primary lock interface). -/
def deployEscrow (env : Env) (s : EscrowState) (order_hash : Digest)
    (params : ResolverParams) : MsgResult :=
  if s.paused then .error .ContractPaused
  else
    let safety_deposit := env.transferred
    if safety_deposit < s.min_safety_deposit then .error .InsufficientDeposit
    else
      match s.orders.get order_hash with
      | none => .error .OrderNotFound
      | some order =>
        if order.status ≠ .Pending then .error .InvalidOrderStatus
        else if s.active_hash_locks.contains params.hash_lock then
          .error .HashLockAlreadyUsed
        else
          let immutables : EscrowImmutables :=
            { order_hash := order_hash
              hash_lock := params.hash_lock
              maker := order.maker
              taker := params.resolver
              token := order.src_token
              amount := order.src_amount
              safety_deposit := safety_deposit
              timelocks := order.time_locks
              deployed_at := some env.now }
          match computeEscrowAddress env immutables with
          | .error e => .error e
          | .ok escrow_address =>
            let order' := { order with
              resolver := some params.resolver
              hash_lock_info := { order.hash_lock_info with
                                  hash_lock := params.hash_lock }
              safety_deposit := safety_deposit
              resolver_fee := params.resolver_fee
              status := .Locked
              taker := some env.caller
              ethereum_escrow := some { escrow_address := params.ethereum_escrow_address
                                        tx_hash := none
                                        block_number := none } }
            .ok ({ s with
              orders := s.orders.insert order_hash order'
              escrow_addresses := s.escrow_addresses.insert order_hash escrow_address
              active_hash_locks := s.active_hash_locks.insert params.hash_lock order_hash
              resolver_stakes := s.resolver_stakes.insert params.resolver safety_deposit }, [])

/-- The direction-dependent payout block of `execute_swap_internal`. -/
def payoutTransfers (env : Env) (s : EscrowState) (order : FusionOrder)
    (net_amount resolver_fee protocol_fee : Balance) :
    Except Error Transfers :=
  match order.direction with
  | .PolkadotToEthereum =>
    match order.resolver with
    | none => .error .OnlyResolver
    | some resolver_address =>
      match checkedAdd128 net_amount resolver_fee with
      | none => .error .ArithmeticOverflow
      | some total_to_resolver =>
        if env.transferOk resolver_address total_to_resolver then
          if 0 < protocol_fee then
            if env.transferOk s.owner protocol_fee then
              .ok [(resolver_address, total_to_resolver), (s.owner, protocol_fee)]
            else .error .TransferFailed
          else .ok [(resolver_address, total_to_resolver)]
        else .error .TransferFailed
  | .EthereumToPolkadot =>
    if env.transferOk order.maker net_amount then
      let feeStep : Except Error Transfers :=
        if 0 < resolver_fee then
          match order.resolver with
          | none => .error .OnlyResolver
          | some resolver_address =>
            if env.transferOk resolver_address resolver_fee then
              .ok [(resolver_address, resolver_fee)]
            else .error .TransferFailed
        else .ok []
      match feeStep with
      | .error e => .error e
      | .ok t2 =>
        if 0 < protocol_fee then
          if env.transferOk s.owner protocol_fee then
            .ok ((order.maker, net_amount) :: t2 ++ [(s.owner, protocol_fee)])
          else .error .TransferFailed
        else .ok ((order.maker, net_amount) :: t2)
    else .error .TransferFailed

/-- Models `execute_swap_internal`. -/
def executeSwapInternal (env : Env) (s : EscrowState) (order_hash : Digest)
    (secret : Nat) : MsgResult :=
  if s.paused then .error .ContractPaused
  else
    match s.orders.get order_hash with
    | none => .error .OrderNotFound
    | some order =>
      if order.status ≠ .Locked then .error .InvalidOrderStatus
      else if order.time_locks.fill_deadline < env.now then .error .DeadlineExpired
      else if env.hashBytes (encodeSecret secret) ≠ order.hash_lock_info.hash_lock then
        .error .InvalidSecret
      else if order.direction = .PolkadotToEthereum ∧ order.ethereum_escrow = none then
        .error .EthereumEscrowNotSet
      else
        let total_amount := order.src_amount
        match calculateProtocolFee s total_amount with
        | .error e => .error e
        | .ok protocol_fee =>
          match checkedSub total_amount protocol_fee with
          | none => .error .ArithmeticOverflow
          | some remaining_after_protocol =>
            let resolver_fee := min order.resolver_fee remaining_after_protocol
            match checkedSub remaining_after_protocol resolver_fee with
            | none => .error .ArithmeticOverflow
            | some net_amount =>
              match payoutTransfers env s order net_amount resolver_fee protocol_fee with
              | .error e => .error e
              | .ok transfers =>
                match checkedAdd128 s.total_volume total_amount with
                | none => .error .ArithmeticOverflow
                | some total_volume' =>
                  let order' := { order with
                    status := .Executed
                    filled_amount := total_amount
                    hash_lock_info := { order.hash_lock_info with
                                        secret := some secret } }
                  .ok ({ s with
                    orders := s.orders.insert order_hash order'
                    active_hash_locks := s.active_hash_locks.remove order.hash_lock_info.hash_lock
                    total_volume := total_volume' }, transfers)

/-- Models `execute_swap` (primary interface) forwards to `execute_swap_internal`. -/
def executeSwap (env : Env) (s : EscrowState) (order_hash : Digest)
    (secret : Nat) : MsgResult :=
  executeSwapInternal env s order_hash secret

/-- Models `withdraw` (resolver-compatible interface). -/
def withdrawMsg (env : Env) (s : EscrowState) (order_hash : Digest)
    (secret : Nat) : MsgResult :=
  match s.escrow_addresses.get order_hash with
  | none => .error .EscrowNotFound
  | some _escrow_address =>
    match s.orders.get order_hash with
    | none => .error .OrderNotFound
    | some order =>
      if env.hashBytes (encodeSecret secret) ≠ order.hash_lock_info.hash_lock then
        .error .InvalidSecret
      else
        match checkWithdrawalTimelock order env.now with
        | .error e => .error e
        | .ok _ => executeSwapInternal env s order_hash secret

/-- The refund block shared by `cancel` and `cancel_order`: pay the unfilled
amount back to the maker and the safety deposit back to the resolver. -/
def refundTransfers (env : Env) (order : FusionOrder)
    (refund_amount : Balance) : Except Error Transfers :=
  if 0 < refund_amount then
    if env.transferOk order.maker refund_amount then
      match order.resolver with
      | some r =>
        if 0 < order.safety_deposit then
          if env.transferOk r order.safety_deposit then
            .ok [(order.maker, refund_amount), (r, order.safety_deposit)]
          else .error .TransferFailed
        else .ok [(order.maker, refund_amount)]
      | none => .ok [(order.maker, refund_amount)]
    else .error .TransferFailed
  else
    match order.resolver with
    | some r =>
      if 0 < order.safety_deposit then
        if env.transferOk r order.safety_deposit then
          .ok [(r, order.safety_deposit)]
        else .error .TransferFailed
      else .ok []
    | none => .ok []

/-- Models `cancel` (resolver-compatible interface); it has no paused check and
gates on `check_cancellation_timelock` only.  A fixed-width `[u8; 32]` hash
lock is never empty, so the index entry is always removed. -/
def cancelMsg (env : Env) (s : EscrowState) (order_hash : Digest) : MsgResult :=
  match s.escrow_addresses.get order_hash with
  | none => .error .EscrowNotFound
  | some _escrow_address =>
    match s.orders.get order_hash with
    | none => .error .OrderNotFound
    | some order =>
      match checkCancellationTimelock order env.now with
      | .error e => .error e
      | .ok _ =>
        match checkedSub order.src_amount order.filled_amount with
        | none => .error .ArithmeticOverflow
        | some refund_amount =>
          match refundTransfers env order refund_amount with
          | .error e => .error e
          | .ok transfers =>
            let order' := { order with status := OrderStatus.Cancelled }
            .ok ({ s with
              orders := s.orders.insert order_hash order'
              active_hash_locks := s.active_hash_locks.remove order.hash_lock_info.hash_lock },
              transfers)

/-- Models `cancel_order` (primary interface). -/
def cancelOrder (env : Env) (s : EscrowState) (order_hash : Digest) : MsgResult :=
  if s.paused then .error .ContractPaused
  else
    match s.orders.get order_hash with
    | none => .error .OrderNotFound
    | some order =>
      if (cancelDecision order env.caller env.now).1 = false then
        .error .Unauthorized
      else
        match checkedSub order.src_amount order.filled_amount with
        | none => .error .ArithmeticOverflow
        | some refund_amount =>
          match refundTransfers env order refund_amount with
          | .error e => .error e
          | .ok transfers =>
            let order' := { order with status := OrderStatus.Cancelled }
            .ok ({ s with
              orders := s.orders.insert order_hash order'
              active_hash_locks := s.active_hash_locks.remove order.hash_lock_info.hash_lock },
              transfers)

/-- Models `execute_partial_fill`; note there is no deadline check and any
`fill_amount ≤ remaining` (zero included) is accepted. -/
def executePartialFill (env : Env) (s : EscrowState) (order_hash : Digest)
    (fill_amount : Balance) (secret : Nat) : MsgResult :=
  if s.paused then .error .ContractPaused
  else
    match s.orders.get order_hash with
    | none => .error .OrderNotFound
    | some order =>
      if order.status ≠ .Locked ∧ order.status ≠ .PartialFill then
        .error .InvalidOrderStatus
      else if env.hashBytes (encodeSecret secret) ≠ order.hash_lock_info.hash_lock then
        .error .InvalidSecret
      else
        match checkedSub order.src_amount order.filled_amount with
        | none => .error .ArithmeticOverflow
        | some remaining =>
          if remaining < fill_amount then .error .InvalidAmount
          else
            match checkedAdd128 order.filled_amount fill_amount with
            | none => .error .ArithmeticOverflow
            | some filled' =>
              let executed := order.src_amount ≤ filled'
              let order' := { order with
                filled_amount := filled'
                status := if executed then OrderStatus.Executed
                          else OrderStatus.PartialFill }
              let locks' := if executed then
                  s.active_hash_locks.remove order.hash_lock_info.hash_lock
                else s.active_hash_locks
              match checkedSub order'.src_amount order'.filled_amount with
              | none => .error .ArithmeticOverflow
              | some _remaining_amount =>
                .ok ({ s with
                  orders := s.orders.insert order_hash order'
                  active_hash_locks := locks' }, [])

/-- Models `arbitrary_calls`: owner-gated; the per-target call stub always
succeeds and nothing in storage is touched. -/
def arbitraryCalls (env : Env) (s : EscrowState) (targets : List AccountId)
    (arguments : List (List Nat)) : MsgResult :=
  match ensureOwner env s with
  | .error e => .error e
  | .ok _ =>
    if targets.length ≠ arguments.length then .error .LengthMismatch
    else .ok (s, [])

-- --- The message type, dispatcher and transactional wrapper ---

inductive Msg
  | setPaused (p : Bool)
  | approveResolver (r : AccountId)
  | addTrustedRelayer (r : AccountId)
  | transferOwnership (o : AccountId)
  | createOrder (params : CreateOrderParams)
  | deploySrc (immutables : EscrowImmutables) (order_hash : Digest)
  | deployDst (dst_immutables : EscrowImmutables) (ts : Timestamp)
  | deployEscrow (order_hash : Digest) (params : ResolverParams)
  | withdrawMsg (order_hash : Digest) (secret : Nat)
  | executeSwap (order_hash : Digest) (secret : Nat)
  | cancelMsg (order_hash : Digest)
  | cancelOrder (order_hash : Digest)
  | executePartialFill (order_hash : Digest) (amount : Balance) (secret : Nat)
  | arbitraryCalls (targets : List AccountId) (arguments : List (List Nat))

def apply (m : Msg) (env : Env) (s : EscrowState) : MsgResult :=
  match m with
  | .setPaused p => setPaused env s p
  | .approveResolver r => approveResolver env s r
  | .addTrustedRelayer r => addTrustedRelayer env s r
  | .transferOwnership o => transferOwnership env s o
  | .createOrder params => createOrder env s params
  | .deploySrc immutables order_hash => deploySrc env s immutables order_hash
  | .deployDst dst_immutables ts => deployDst env s dst_immutables ts
  | .deployEscrow order_hash params => deployEscrow env s order_hash params
  | .withdrawMsg order_hash secret => withdrawMsg env s order_hash secret
  | .executeSwap order_hash secret => executeSwap env s order_hash secret
  | .cancelMsg order_hash => cancelMsg env s order_hash
  | .cancelOrder order_hash => cancelOrder env s order_hash
  | .executePartialFill order_hash amount secret =>
      executePartialFill env s order_hash amount secret
  | .arbitraryCalls targets arguments => arbitraryCalls env s targets arguments

/-- Transactional execution of one message: the platform reverts every
state change and every transfer when the message returns an error. -/
def run (m : Msg) (env : Env) (s : EscrowState) :
    Except Error Unit × EscrowState × Transfers :=
  match apply m env s with
  | .ok (s', t) => (.ok (), s', t)
  | .error e => (.error e, s, [])

/-- One externally-initiated transaction, under any environment. -/
def Step (s s' : EscrowState) : Prop :=
  ∃ m env, (run m env s).2.1 = s'

/-- States reachable from some freshly constructed engine. -/
def Reachable (s : EscrowState) : Prop :=
  ∃ deployer bps minDep chainId ethRes,
    Relation.ReflTransGen Step (initState deployer bps minDep chainId ethRes) s

end Fpe

namespace Fpe

/-- Extract the committed state of a successful message, with a default for
the error case. -/
def okStateD (r : MsgResult) (d : EscrowState) : EscrowState :=
  match r with
  | .ok (s, _) => s
  | .error _ => d

-- A concrete engine history used by the closed counterexamples and
-- witnesses below.  The external Blake2x256 is instantiated by `List.sum`
-- (any concrete function is a legitimate environment) and every native
-- transfer succeeds.

def wEnv0 : Env :=
  { caller := 1, now := 10, transferred := 1000,
    hashBytes := List.sum, transferOk := fun _ _ => true }

def wParams : CreateOrderParams :=
  { direction := .EthereumToPolkadot, src_token := 3, dst_token := 4,
    src_amount := 1000, min_dst_amount := 900, fill_deadline := 100,
    ethereum_recipient := 9, max_resolver_fee := 7 }

def wS0 : EscrowState := initState 1 100 10 0 0

def wS1 : EscrowState := okStateD (createOrder wEnv0 wS0 wParams) wS0

def wOh : Digest := List.sum (encodeOrderData 1 3 4 1000 900 100 0 10)

def wEnvLock : Env := { wEnv0 with caller := 2, transferred := 50 }

def wRP : ResolverParams :=
  { resolver := 2, hash_lock := 77, ethereum_escrow_address := 8,
    resolver_fee := 7 }

def wS2 : EscrowState := okStateD (deployEscrow wEnvLock wS1 wOh wRP) wS1

def wEnvExec : Env := { wEnv0 with caller := 2, now := 50, transferred := 0 }

def wS3 : EscrowState := okStateD (executePartialFill wEnvExec wS2 wOh 300 77) wS2


/-- Whether a message result committed. -/
def isOkB {α : Type} (r : Except Error α) : Bool :=
  match r with
  | .ok _ => true
  | .error _ => false

/-- The safety-deposit leg of a refund (paid when a resolver is assigned and
the deposit is positive). -/
def resolverPart (order : FusionOrder) : Transfers :=
  match order.resolver with
  | some r => if 0 < order.safety_deposit then [(r, order.safety_deposit)] else []
  | none => []

/-- An injective byte-string digest used to instantiate the environment of
collision-freedom witnesses. -/
def pairEnc : List Nat → Nat
  | [] => 0
  | a :: t => Nat.pair a (pairEnc t) + 1

def injEnv : Env :=
  { caller := 1, now := 0, transferred := 0, hashBytes := pairEnc,
    transferOk := fun _ _ => true }

/-- The locked order stored in `wS2`. -/
def wLockedOrder : FusionOrder :=
  (wS2.orders.get wOh).getD (newOrder wEnv0 wS0 wParams 0)

def wEnvStranger : Env := { wEnv0 with caller := 9, now := 200 }

def wEnvLate : Env := { wEnv0 with caller := 2, now := 200 }

-- A second order created under the same parameters (nonce 1), and two
-- `deploy_src` calls that lock both orders behind the same hash lock 500.

def c4s2 : EscrowState := okStateD (createOrder wEnv0 wS1 wParams) wS1

def c4imm1 : EscrowImmutables :=
  { order_hash := 2019, hash_lock := 500, maker := 1, taker := 2, token := 3,
    amount := 1000, safety_deposit := 0,
    timelocks := { fill_deadline := 100, private_cancellation := 1800010 },
    deployed_at := none }

def c4imm2 : EscrowImmutables := { c4imm1 with order_hash := 2020 }

def c4s3 : EscrowState := okStateD (deploySrc wEnvLock c4s2 c4imm1 2019) c4s2

def c4s4 : EscrowState := okStateD (deploySrc wEnvLock c4s3 c4imm2 2020) c4s3

/-- Immutables agreeing with `c4imm1` on the six seed fields but with a
different token, deposit and timelocks. -/
def wImmA2 : EscrowImmutables :=
  { c4imm1 with
    token := 99
    safety_deposit := 123
    timelocks := { fill_deadline := 1, private_cancellation := 2 } }

/-- A full execution of the locked order in `wS2` and its committed state
and payout list. -/
def wExec : MsgResult := executeSwapInternal wEnvExec wS2 wOh 77

def wS4 : EscrowState := okStateD wExec wS0

def wT4 : Transfers :=
  match wExec with
  | .ok (_, t) => t
  | .error _ => []

def wC5state : EscrowState := okStateD (cancelOrder wEnvStranger wS2 wOh) wS0

def wC6state : EscrowState := okStateD (executePartialFill wEnvLate wS2 wOh 0 77) wS0

def wEnvMaker50 : Env := { wEnv0 with now := 50 }

/-- The per-order facts that every reachable engine maintains:
`filled_amount ≤ src_amount`, and the counterparty escrow record never
carries cross-ledger confirmation data (`tx_hash`, `block_number`). -/
def GoodOrder (o : FusionOrder) : Prop :=
  o.filled_amount ≤ o.src_amount ∧
  ∀ info, o.ethereum_escrow = some info →
    info.tx_hash = none ∧ info.block_number = none

def GoodOrders (s : EscrowState) : Prop :=
  ∀ oh o, s.orders.get oh = some o → GoodOrder o


end Fpe

namespace Fpe

theorem checkedSub_eq_some {a b c : Nat} (h : checkedSub a b = some c) :
    b ≤ a ∧ c = a - b := by
  unfold checkedSub at h
  split at h
  next hle => injection h with h'; exact ⟨hle, h'.symm⟩
  next => cases h

theorem checkedAdd128_eq_some {a b c : Nat} (h : checkedAdd128 a b = some c) :
    a + b < U128 ∧ c = a + b := by
  unfold checkedAdd128 at h
  split at h
  next hlt => injection h with h'; exact ⟨hlt, h'.symm⟩
  next => cases h

theorem checkedMul128_eq_some {a b c : Nat} (h : checkedMul128 a b = some c) :
    a * b < U128 ∧ c = a * b := by
  unfold checkedMul128 at h
  split at h
  next hlt => injection h with h'; exact ⟨hlt, h'.symm⟩
  next => cases h

theorem checkedAdd64_eq_some {a b c : Nat} (h : checkedAdd64 a b = some c) :
    a + b < U64 ∧ c = a + b := by
  unfold checkedAdd64 at h
  split at h
  next hlt => injection h with h'; exact ⟨hlt, h'.symm⟩
  next => cases h

theorem mapForallInsert {β : Type} {P : β → Prop} {m : Map β} {k : Nat} {v : β}
    (hm : ∀ q x, m.get q = some x → P x) (hv : P v) :
    ∀ q x, (m.insert k v).get q = some x → P x := by
  intro q x hx
  unfold Map.insert Map.get at hx
  simp only [] at hx
  split at hx
  next => injection hx with h'; exact h' ▸ hv
  next => exact hm q x hx

theorem goodOrders_setPaused {env s p s' t} (hinv : GoodOrders s)
    (h : setPaused env s p = .ok (s', t)) : GoodOrders s' := by
  unfold setPaused ensureOwner at h
  split at h
  next => cases h
  next =>
    injection h with h1
    injection h1 with h2 h3
    subst h2
    exact hinv

theorem goodOrders_executeSwapInternal {env s oh secret s' t}
    (hinv : GoodOrders s)
    (h : executeSwapInternal env s oh secret = .ok (s', t)) : GoodOrders s' := by
  unfold executeSwapInternal at h
  split at h
  next => cases h
  next =>
    split at h
    next => cases h
    next order heq =>
      split at h
      next => cases h
      next =>
        split at h
        next => cases h
        next =>
          split at h
          next => cases h
          next =>
            split at h
            next => cases h
            next =>
              simp only [] at h
              split at h
              next => cases h
              next pf hpf =>
                split at h
                next => cases h
                next rap hrap =>
                  split at h
                  next => cases h
                  next net hnet =>
                    split at h
                    next => cases h
                    next transfers htr =>
                      split at h
                      next => cases h
                      next tv htv =>
                        injection h with h1
                        injection h1 with h2 h3
                        subst h2
                        intro q x hx
                        refine mapForallInsert hinv ?_ q x hx
                        obtain ⟨h4, h5⟩ := hinv oh order heq
                        exact ⟨le_refl _, h5⟩

theorem goodOrders_approveResolver {env s r s' t} (hinv : GoodOrders s)
    (h : approveResolver env s r = .ok (s', t)) : GoodOrders s' := by
  unfold approveResolver ensureOwner at h
  split at h
  next => cases h
  next => injection h with h1; injection h1 with h2 h3; subst h2; exact hinv

theorem goodOrders_addTrustedRelayer {env s r s' t} (hinv : GoodOrders s)
    (h : addTrustedRelayer env s r = .ok (s', t)) : GoodOrders s' := by
  unfold addTrustedRelayer ensureOwner at h
  split at h
  next => cases h
  next => injection h with h1; injection h1 with h2 h3; subst h2; exact hinv

theorem goodOrders_transferOwnership {env s o s' t} (hinv : GoodOrders s)
    (h : transferOwnership env s o = .ok (s', t)) : GoodOrders s' := by
  unfold transferOwnership ensureOwner at h
  split at h
  next => cases h
  next => injection h with h1; injection h1 with h2 h3; subst h2; exact hinv

theorem goodOrders_arbitraryCalls {env s ts args s' t} (hinv : GoodOrders s)
    (h : arbitraryCalls env s ts args = .ok (s', t)) : GoodOrders s' := by
  unfold arbitraryCalls ensureOwner at h
  split at h
  next => cases h
  next =>
    split at h
    next => cases h
    next => injection h with h1; injection h1 with h2 h3; subst h2; exact hinv

theorem goodOrders_createOrder {env s params s' t} (hinv : GoodOrders s)
    (h : createOrder env s params = .ok (s', t)) : GoodOrders s' := by
  unfold createOrder at h
  split at h
  next => cases h
  next =>
    split at h
    next => cases h
    next =>
      split at h
      next => cases h
      next =>
        split at h
        next => cases h
        next pc hpc =>
          split at h
          next => cases h
          next =>
            split at h
            next => cases h
            next nonce' hn =>
              injection h with h1
              injection h1 with h2 h3
              subst h2
              unfold GoodOrders at hinv ⊢
              intro q x hx
              refine mapForallInsert hinv ?_ q x hx
              constructor
              · exact Nat.zero_le _
              · intro info hinfo; cases hinfo

theorem goodOrders_deploySrc {env s imm oh s' t} (hinv : GoodOrders s)
    (h : deploySrc env s imm oh = .ok (s', t)) : GoodOrders s' := by
  unfold deploySrc at h
  simp only [] at h
  split at h
  next => cases h
  next =>
    split at h
    next => cases h
    next =>
      split at h
      next => cases h
      next order heq =>
        split at h
        next => cases h
        next =>
          split at h
          next => cases h
          next ea hea =>
            injection h with h1
            injection h1 with h2 h3
            subst h2
            unfold GoodOrders at hinv ⊢
            intro q x hx
            refine mapForallInsert hinv ?_ q x hx
            obtain ⟨h4, h5⟩ := hinv oh order heq
            exact ⟨h4, h5⟩

theorem goodOrders_deployDst {env s imm ts s' t} (hinv : GoodOrders s)
    (h : deployDst env s imm ts = .ok (s', t)) : GoodOrders s' := by
  unfold deployDst at h
  simp only [] at h
  split at h
  next => cases h
  next =>
    split at h
    next => cases h
    next order heq =>
      split at h
      next => cases h
      next ea hea =>
        injection h with h1
        injection h1 with h2 h3
        subst h2
        unfold GoodOrders at hinv ⊢
        intro q x hx
        refine mapForallInsert hinv ?_ q x hx
        obtain ⟨h4, h5⟩ := hinv imm.order_hash order heq
        refine ⟨h4, ?_⟩
        intro info hinfo
        injection hinfo with h6
        exact h6 ▸ ⟨rfl, rfl⟩

theorem goodOrders_deployEscrow {env s oh params s' t} (hinv : GoodOrders s)
    (h : deployEscrow env s oh params = .ok (s', t)) : GoodOrders s' := by
  unfold deployEscrow at h
  simp only [] at h
  split at h
  next => cases h
  next =>
    split at h
    next => cases h
    next =>
      split at h
      next => cases h
      next order heq =>
        split at h
        next => cases h
        next =>
          split at h
          next => cases h
          next =>
            split at h
            next => cases h
            next ea hea =>
              injection h with h1
              injection h1 with h2 h3
              subst h2
              unfold GoodOrders at hinv ⊢
              intro q x hx
              refine mapForallInsert hinv ?_ q x hx
              obtain ⟨h4, h5⟩ := hinv oh order heq
              refine ⟨h4, ?_⟩
              intro info hinfo
              injection hinfo with h6
              exact h6 ▸ ⟨rfl, rfl⟩

theorem goodOrders_executeSwap {env s oh secret s' t} (hinv : GoodOrders s)
    (h : executeSwap env s oh secret = .ok (s', t)) : GoodOrders s' :=
  goodOrders_executeSwapInternal hinv h

theorem goodOrders_withdrawMsg {env s oh secret s' t} (hinv : GoodOrders s)
    (h : withdrawMsg env s oh secret = .ok (s', t)) : GoodOrders s' := by
  unfold withdrawMsg at h
  split at h
  next => cases h
  next =>
    split at h
    next => cases h
    next order heq =>
      split at h
      next => cases h
      next =>
        split at h
        next => cases h
        next => exact goodOrders_executeSwapInternal hinv h

theorem goodOrders_cancelMsg {env s oh s' t} (hinv : GoodOrders s)
    (h : cancelMsg env s oh = .ok (s', t)) : GoodOrders s' := by
  unfold cancelMsg at h
  simp only [] at h
  split at h
  next => cases h
  next =>
    split at h
    next => cases h
    next order heq =>
      split at h
      next => cases h
      next =>
        split at h
        next => cases h
        next refund_amount hra =>
          split at h
          next => cases h
          next transfers htr =>
            injection h with h1
            injection h1 with h2 h3
            subst h2
            unfold GoodOrders at hinv ⊢
            intro q x hx
            refine mapForallInsert hinv ?_ q x hx
            obtain ⟨h4, h5⟩ := hinv oh order heq
            exact ⟨h4, h5⟩

theorem goodOrders_cancelOrder {env s oh s' t} (hinv : GoodOrders s)
    (h : cancelOrder env s oh = .ok (s', t)) : GoodOrders s' := by
  unfold cancelOrder at h
  simp only [] at h
  split at h
  next => cases h
  next =>
    split at h
    next => cases h
    next order heq =>
      split at h
      next => cases h
      next =>
        split at h
        next => cases h
        next refund_amount hra =>
          split at h
          next => cases h
          next transfers htr =>
            injection h with h1
            injection h1 with h2 h3
            subst h2
            unfold GoodOrders at hinv ⊢
            intro q x hx
            refine mapForallInsert hinv ?_ q x hx
            obtain ⟨h4, h5⟩ := hinv oh order heq
            exact ⟨h4, h5⟩

theorem goodOrders_executePartialFill {env s oh amt secret s' t}
    (hinv : GoodOrders s)
    (h : executePartialFill env s oh amt secret = .ok (s', t)) :
    GoodOrders s' := by
  unfold executePartialFill at h
  simp only [] at h
  split at h
  next => cases h
  next =>
    split at h
    next => cases h
    next order heq =>
      split at h
      next => cases h
      next =>
        split at h
        next => cases h
        next =>
          split at h
          next => cases h
          next remaining hrem =>
            split at h
            next => cases h
            next hamt =>
              split at h
              next => cases h
              next filled' hfa =>
                split at h
                next => cases h
                next ra hra =>
                  injection h with h1
                  injection h1 with h2 h3
                  subst h2
                  unfold GoodOrders at hinv ⊢
                  intro q x hx
                  refine mapForallInsert hinv ?_ q x hx
                  obtain ⟨h4, h5⟩ := hinv oh order heq
                  obtain ⟨hle, hreq⟩ := checkedSub_eq_some hrem
                  obtain ⟨hlt, hfeq⟩ := checkedAdd128_eq_some hfa
                  simp only [not_lt] at hamt
                  have h6 : order.filled_amount + remaining = order.src_amount := by
                    rw [hreq]; exact Nat.add_sub_cancel' hle
                  refine ⟨?_, h5⟩
                  show filled' ≤ order.src_amount
                  omega

theorem goodOrders_apply {m : Msg} {env s s' t} (hinv : GoodOrders s)
    (h : apply m env s = .ok (s', t)) : GoodOrders s' := by
  cases m with
  | setPaused p => exact goodOrders_setPaused hinv h
  | approveResolver r => exact goodOrders_approveResolver hinv h
  | addTrustedRelayer r => exact goodOrders_addTrustedRelayer hinv h
  | transferOwnership o => exact goodOrders_transferOwnership hinv h
  | createOrder params => exact goodOrders_createOrder hinv h
  | deploySrc imm oh => exact goodOrders_deploySrc hinv h
  | deployDst imm ts => exact @goodOrders_deployDst env s imm ts s' t hinv h
  | deployEscrow oh params => exact goodOrders_deployEscrow hinv h
  | withdrawMsg oh secret => exact goodOrders_withdrawMsg hinv h
  | executeSwap oh secret => exact goodOrders_executeSwap hinv h
  | cancelMsg oh => exact goodOrders_cancelMsg hinv h
  | cancelOrder oh => exact goodOrders_cancelOrder hinv h
  | executePartialFill oh amt secret => exact goodOrders_executePartialFill hinv h
  | arbitraryCalls ts args => exact goodOrders_arbitraryCalls hinv h

theorem goodOrders_run {m : Msg} {env s} (hinv : GoodOrders s) :
    GoodOrders (run m env s).2.1 := by
  rcases happly : apply m env s with e | ⟨s', t⟩
  · unfold run; rw [happly]; exact hinv
  · unfold run; rw [happly]; exact goodOrders_apply hinv happly

theorem goodOrders_step {s s'} (hinv : GoodOrders s) (h : Step s s') :
    GoodOrders s' := by
  obtain ⟨m, env, hrun⟩ := h
  exact hrun ▸ goodOrders_run hinv

theorem goodOrders_init (deployer bps minDep chainId ethRes : Nat) :
    GoodOrders (initState deployer bps minDep chainId ethRes) := by
  intro oh o hx
  exact Option.noConfusion hx

theorem goodOrders_reachable {s} (h : Reachable s) : GoodOrders s := by
  obtain ⟨d, b, mn, c, e, hr⟩ := h
  induction hr with
  | refl => exact goodOrders_init d b mn c e
  | tail hab hbc ih => exact goodOrders_step ih hbc

end Fpe

namespace Fpe

theorem pairEnc_inj : Function.Injective pairEnc := by
  intro l l' h
  induction l generalizing l' with
  | nil =>
    cases l' with
    | nil => rfl
    | cons b u => unfold pairEnc at h; exact absurd h (by omega)
  | cons a t ih =>
    cases l' with
    | nil => unfold pairEnc at h; exact absurd h (by omega)
    | cons b u =>
      unfold pairEnc at h
      have h1 : Nat.pair a (pairEnc t) = Nat.pair b (pairEnc u) := by omega
      have h2 := Nat.pair_eq_pair.mp h1
      rw [h2.1, ih h2.2]

/-- C7: `filled_amount ≤ src_amount` holds for every order stored in every
reachable engine state: creation starts at zero, partial fills stay within
the remaining amount, full execution sets it to exactly `src_amount`, and no
other operation touches either field. -/
theorem filled_le_src_of_reachable {s : EscrowState} (h : Reachable s) :
    ∀ oh o, s.orders.get oh = some o → o.filled_amount ≤ o.src_amount :=
  fun oh o ho => (goodOrders_reachable h oh o ho).1

theorem filled_le_src_witness :
    Reachable wS3 ∧
    (∀ oh o, wS3.orders.get oh = some o → o.filled_amount ≤ o.src_amount) := by
  have h1 : Step wS0 wS1 := ⟨Msg.createOrder wParams, wEnv0, rfl⟩
  have h2 : Step wS1 wS2 := ⟨Msg.deployEscrow wOh wRP, wEnvLock, rfl⟩
  have h3 : Step wS2 wS3 := ⟨Msg.executePartialFill wOh 300 77, wEnvExec, rfl⟩
  have hreach : Reachable wS3 :=
    ⟨1, 100, 10, 0, 0,
      Relation.ReflTransGen.head h1
        (Relation.ReflTransGen.head h2 (Relation.ReflTransGen.single h3))⟩
  exact ⟨hreach, filled_le_src_of_reachable hreach⟩

/-- C8: an operation that returns an error commits nothing: the transaction
yields the same engine state and an empty payout list. -/
theorem run_error_frame (m : Msg) (env : Env) (s : EscrowState) (e : Error)
    (h : apply m env s = .error e) : run m env s = (.error e, s, []) := by
  unfold run
  rw [h]

theorem run_error_frame_witness :
    apply (Msg.cancelOrder 0) wEnv0 wS0 = .error .OrderNotFound ∧
    run (Msg.cancelOrder 0) wEnv0 wS0 = (.error .OrderNotFound, wS0, []) :=
  ⟨rfl, run_error_frame _ _ _ _ rfl⟩

/-- C9: the derived escrow identity is exactly the digest of the encoded
`(order_hash, hash_lock, maker, taker, amount, deployed_at)` seed, equal
seeds give equal identities (no other field enters), and under an injective
digest distinct order hashes give distinct identities. -/
theorem escrow_address_det (env : Env) (imm imm' : EscrowImmutables) :
    computeEscrowAddress env imm =
      .ok (env.hashBytes (encodeSeed imm.order_hash imm.hash_lock imm.maker
        imm.taker imm.amount (imm.deployed_at.getD 0))) ∧
    (imm.order_hash = imm'.order_hash → imm.hash_lock = imm'.hash_lock →
     imm.maker = imm'.maker → imm.taker = imm'.taker →
     imm.amount = imm'.amount → imm.deployed_at = imm'.deployed_at →
     computeEscrowAddress env imm = computeEscrowAddress env imm') ∧
    (Function.Injective env.hashBytes → imm.order_hash ≠ imm'.order_hash →
     computeEscrowAddress env imm ≠ computeEscrowAddress env imm') := by
  refine ⟨rfl, ?_, ?_⟩
  · intro h1 h2 h3 h4 h5 h6
    unfold computeEscrowAddress
    rw [h1, h2, h3, h4, h5, h6]
  · intro hinj hne hcontra
    unfold computeEscrowAddress at hcontra
    injection hcontra with h7
    have h8 := hinj h7
    unfold encodeSeed at h8
    injection h8 with h9 h10
    injection h10 with h11 h12
    exact hne h11

theorem escrow_address_det_witness :
    computeEscrowAddress injEnv c4imm1 ≠ computeEscrowAddress injEnv c4imm2 ∧
    computeEscrowAddress injEnv c4imm1 = computeEscrowAddress injEnv wImmA2 :=
  ⟨(escrow_address_det injEnv c4imm1 c4imm2).2.2 pairEnc_inj (by decide),
   (escrow_address_det injEnv c4imm1 wImmA2).2.1 rfl rfl rfl rfl rfl rfl⟩

/-- C10: `deploy_dst` succeeds for any stored order regardless of status,
mutating only the order's counterparty-escrow field (set to the all-zero
sentinel) and the escrow-address entry for that hash; and in every reachable
state no order ever carries real cross-ledger confirmation data
(`tx_hash`/`block_number` stay unset). -/
theorem deployDst_frame_and_sentinel :
    (∀ (env : Env) (s : EscrowState) (imm : EscrowImmutables) (ts : Timestamp)
       (order : FusionOrder), s.paused = false →
       s.orders.get imm.order_hash = some order →
       deployDst env s imm ts = .ok ({ s with
         orders := s.orders.insert imm.order_hash
           { order with ethereum_escrow := some sentinelEscrow }
         escrow_addresses := s.escrow_addresses.insert imm.order_hash
           (env.hashBytes (encodeSeed imm.order_hash imm.hash_lock imm.maker
             imm.taker imm.amount (imm.deployed_at.getD 0))) }, [])) ∧
    (∀ s : EscrowState, Reachable s → ∀ oh o info,
       s.orders.get oh = some o → o.ethereum_escrow = some info →
       info.tx_hash = none ∧ info.block_number = none) := by
  constructor
  · intro env s imm ts order hp ho
    unfold deployDst computeEscrowAddress
    simp [hp, ho, encodeSeed]
  · intro s hs oh o info ho hinfo
    exact (goodOrders_reachable hs oh o ho).2 info hinfo

theorem deployDst_witness :
    wS1.paused = false ∧
    isOkB (deployDst wEnvLock wS1 c4imm1 0) = true := by
  refine ⟨rfl, ?_⟩
  have h := (deployDst_frame_and_sentinel).1 wEnvLock wS1 c4imm1 0
    (newOrder wEnv0 wS0 wParams 1800010) rfl (by decide)
  rw [h]
  rfl

end Fpe

namespace Fpe

/-- C3: in every successful swap execution over gross amount
`A = src_amount`, requested resolver fee `f = resolver_fee` and protocol
basis points `bps`, the computed split satisfies
`protocol_fee = A*bps/10000` (truncating division, multiplication checked),
`resolver_fee = min f (A - protocol_fee)`,
`net = A - protocol_fee - resolver_fee`, and
`protocol_fee + resolver_fee + net = A` exactly. -/
theorem settlement_fee_identity (env : Env) (s : EscrowState) (oh : Digest)
    (secret : Nat) (order : FusionOrder) (s' : EscrowState) (t : Transfers)
    (ho : s.orders.get oh = some order)
    (h : executeSwapInternal env s oh secret = .ok (s', t)) :
    order.src_amount * s.protocol_fee_bps < U128 ∧
    order.src_amount * s.protocol_fee_bps / 10000 ≤ order.src_amount ∧
    order.src_amount * s.protocol_fee_bps / 10000 +
      min order.resolver_fee
        (order.src_amount - order.src_amount * s.protocol_fee_bps / 10000) +
      (order.src_amount - order.src_amount * s.protocol_fee_bps / 10000 -
        min order.resolver_fee
          (order.src_amount - order.src_amount * s.protocol_fee_bps / 10000)) =
      order.src_amount := by
  unfold executeSwapInternal at h
  split at h
  next => cases h
  next =>
    split at h
    next => cases h
    next order2 heq =>
      rw [ho] at heq
      injection heq with heq2
      subst heq2
      split at h
      next => cases h
      next =>
        split at h
        next => cases h
        next =>
          split at h
          next => cases h
          next =>
            split at h
            next => cases h
            next =>
              simp only [] at h
              split at h
              next => cases h
              next pf hpf =>
                split at h
                next => cases h
                next rap hrap =>
                  split at h
                  next => cases h
                  next net hnet =>
                    split at h
                    next => cases h
                    next transfers htr =>
                      split at h
                      next => cases h
                      next tv htv =>
                        unfold calculateProtocolFee at hpf
                        split at hpf
                        next v hv =>
                          injection hpf with hpf2
                          obtain ⟨hm1, hm2⟩ := checkedMul128_eq_some hv
                          subst hm2
                          subst hpf2
                          obtain ⟨hs1, hs2⟩ := checkedSub_eq_some hrap
                          refine ⟨hm1, hs1, ?_⟩
                          have hmin : min order.resolver_fee
                              (order.src_amount -
                                order.src_amount * s.protocol_fee_bps / 10000) ≤
                              order.src_amount -
                                order.src_amount * s.protocol_fee_bps / 10000 :=
                            Nat.min_le_right _ _
                          rw [Nat.add_assoc, Nat.add_sub_cancel' hmin,
                            Nat.add_sub_cancel' hs1]
                        next => cases hpf

theorem settlement_fee_identity_witness :
    wS2.orders.get wOh = some wLockedOrder ∧
    (wLockedOrder.src_amount * wS2.protocol_fee_bps < U128 ∧
     wLockedOrder.src_amount * wS2.protocol_fee_bps / 10000 ≤
       wLockedOrder.src_amount ∧
     wLockedOrder.src_amount * wS2.protocol_fee_bps / 10000 +
       min wLockedOrder.resolver_fee
         (wLockedOrder.src_amount -
           wLockedOrder.src_amount * wS2.protocol_fee_bps / 10000) +
       (wLockedOrder.src_amount -
         wLockedOrder.src_amount * wS2.protocol_fee_bps / 10000 -
         min wLockedOrder.resolver_fee
           (wLockedOrder.src_amount -
             wLockedOrder.src_amount * wS2.protocol_fee_bps / 10000)) =
       wLockedOrder.src_amount) :=
  ⟨by decide,
   settlement_fee_identity wEnvExec wS2 wOh 77 wLockedOrder wS4 wT4
     (by decide) rfl⟩

end Fpe

namespace Fpe

theorem payoutTransfers_ok (env : Env) (s : EscrowState) (order : FusionOrder)
    (net rf pf : Balance) (htr : ∀ a b, env.transferOk a b = true)
    (hres : order.resolver ≠ none) (hbound : net + rf < U128) :
    ∃ t, payoutTransfers env s order net rf pf = .ok t := by
  unfold payoutTransfers
  cases hdir : order.direction with
  | PolkadotToEthereum =>
    cases hr : order.resolver with
    | none => exact absurd hr hres
    | some r =>
      have hca : checkedAdd128 net rf = some (net + rf) := by
        unfold checkedAdd128; rw [if_pos hbound]
      rw [hca]
      by_cases hpf : 0 < pf
      · exact ⟨[(r, net + rf), (s.owner, pf)], by simp [htr, hpf]⟩
      · exact ⟨[(r, net + rf)], by simp [htr, hpf]⟩
  | EthereumToPolkadot =>
    cases hr : order.resolver with
    | none => exact absurd hr hres
    | some r =>
      by_cases hrf : 0 < rf
      · by_cases hpf : 0 < pf
        · exact ⟨(order.maker, net) :: [(r, rf)] ++ [(s.owner, pf)],
            by simp [htr, hrf, hpf]⟩
        · exact ⟨(order.maker, net) :: [(r, rf)], by simp [htr, hrf, hpf]⟩
      · by_cases hpf : 0 < pf
        · exact ⟨(order.maker, net) :: [] ++ [(s.owner, pf)],
            by simp [htr, hrf, hpf]⟩
        · exact ⟨(order.maker, net) :: [], by simp [htr, hrf, hpf]⟩

theorem refundTransfers_ok (env : Env) (order : FusionOrder) (ra : Balance)
    (htr : ∀ a b, env.transferOk a b = true) :
    refundTransfers env order ra =
      .ok ((if 0 < ra then [(order.maker, ra)] else []) ++ resolverPart order) := by
  unfold refundTransfers resolverPart
  by_cases hra : 0 < ra
  · cases hr : order.resolver with
    | none => simp [hra, htr]
    | some r =>
      by_cases hsd : 0 < order.safety_deposit <;> simp [hra, htr, hsd]
  · cases hr : order.resolver with
    | none => simp [hra]
    | some r =>
      by_cases hsd : 0 < order.safety_deposit <;> simp [hra, htr, hsd]

theorem cancelDecision_true_iff (order : FusionOrder) (caller : AccountId)
    (now : Timestamp) :
    (cancelDecision order caller now).1 = true ↔
      (((order.status = .Locked ∨ order.status = .PartialFill) ∧
        (order.time_locks.fill_deadline < now ∨ caller = order.maker)) ∨
       (order.status = .Pending ∧ caller = order.maker ∧
        now ≤ order.time_locks.private_cancellation)) := by
  unfold cancelDecision
  cases hst : order.status <;> simp [hst] <;> (try split_ifs) <;>
    simp_all

end Fpe

namespace Fpe

/-- C1 (amended): on an unpaused engine, for a stored order with a resolver
assigned, counterparty escrow set whenever the direction requires it,
payouts succeeding, fee basis points at most 10000 and no overflow,
`execute_swap` succeeds iff `hash(secret) = hash_lock` and the status is
exactly `Locked` (a `PartialFill` order is rejected) and `now ≤ deadline`;
the guards are checked in the order status, deadline, secret, returning
`InvalidOrderStatus`, `DeadlineExpired`, `InvalidSecret` respectively. -/
theorem execute_success_iff (env : Env) (s : EscrowState) (oh : Digest)
    (secret : Nat) (order : FusionOrder)
    (ho : s.orders.get oh = some order)
    (hp : s.paused = false)
    (hres : order.resolver ≠ none)
    (hesc : order.direction = .PolkadotToEthereum → order.ethereum_escrow ≠ none)
    (htr : ∀ a b, env.transferOk a b = true)
    (hbps : s.protocol_fee_bps ≤ 10000)
    (hmul : order.src_amount * s.protocol_fee_bps < U128)
    (hvol : s.total_volume + order.src_amount < U128) :
    ((∃ r, executeSwap env s oh secret = .ok r) ↔
      (env.hashBytes (encodeSecret secret) = order.hash_lock_info.hash_lock ∧
       order.status = .Locked ∧ env.now ≤ order.time_locks.fill_deadline)) ∧
    (order.status ≠ .Locked →
      executeSwap env s oh secret = .error .InvalidOrderStatus) ∧
    (order.status = .Locked → order.time_locks.fill_deadline < env.now →
      executeSwap env s oh secret = .error .DeadlineExpired) ∧
    (order.status = .Locked → env.now ≤ order.time_locks.fill_deadline →
      env.hashBytes (encodeSecret secret) ≠ order.hash_lock_info.hash_lock →
      executeSwap env s oh secret = .error .InvalidSecret) := by
  have herr1 : order.status ≠ .Locked →
      executeSwap env s oh secret = .error .InvalidOrderStatus := by
    intro hst
    unfold executeSwap executeSwapInternal
    simp [hp, ho, hst]
  have herr2 : order.status = .Locked → order.time_locks.fill_deadline < env.now →
      executeSwap env s oh secret = .error .DeadlineExpired := by
    intro hst hdl
    unfold executeSwap executeSwapInternal
    simp [hp, ho, hst, hdl]
  have herr3 : order.status = .Locked → env.now ≤ order.time_locks.fill_deadline →
      env.hashBytes (encodeSecret secret) ≠ order.hash_lock_info.hash_lock →
      executeSwap env s oh secret = .error .InvalidSecret := by
    intro hst hnow hsec
    have hndl : ¬(order.time_locks.fill_deadline < env.now) := not_lt.mpr hnow
    unfold executeSwap executeSwapInternal
    simp [hp, ho, hst, hndl, hsec]
  refine ⟨?_, herr1, herr2, herr3⟩
  constructor
  · rintro ⟨r, hr⟩
    by_cases hst : order.status = .Locked
    · by_cases hdl : order.time_locks.fill_deadline < env.now
      · rw [herr2 hst hdl] at hr
        exact Except.noConfusion hr
      · have hnow : env.now ≤ order.time_locks.fill_deadline := not_lt.mp hdl
        by_cases hsec : env.hashBytes (encodeSecret secret) =
            order.hash_lock_info.hash_lock
        · exact ⟨hsec, hst, hnow⟩
        · rw [herr3 hst hnow hsec] at hr
          exact Except.noConfusion hr
    · rw [herr1 hst] at hr
      exact Except.noConfusion hr
  · rintro ⟨hsec, hst, hnow⟩
    have hndl : ¬(order.time_locks.fill_deadline < env.now) := not_lt.mpr hnow
    have hescok : ¬(order.direction = .PolkadotToEthereum ∧
        order.ethereum_escrow = none) := by
      rintro ⟨hd, he⟩
      exact hesc hd he
    have hpfle : order.src_amount * s.protocol_fee_bps / 10000 ≤
        order.src_amount := by
      have h1 : order.src_amount * s.protocol_fee_bps ≤
          order.src_amount * 10000 := Nat.mul_le_mul_left _ hbps
      have h2 : order.src_amount * s.protocol_fee_bps / 10000 ≤
          order.src_amount * 10000 / 10000 := Nat.div_le_div_right h1
      calc order.src_amount * s.protocol_fee_bps / 10000 ≤
            order.src_amount * 10000 / 10000 := h2
        _ = order.src_amount := Nat.mul_div_cancel _ (by omega)
    have h1 : calculateProtocolFee s order.src_amount =
        .ok (order.src_amount * s.protocol_fee_bps / 10000) := by
      unfold calculateProtocolFee checkedMul128
      rw [if_pos hmul]
    have h2 : checkedSub order.src_amount
        (order.src_amount * s.protocol_fee_bps / 10000) =
        some (order.src_amount -
          order.src_amount * s.protocol_fee_bps / 10000) := by
      unfold checkedSub
      rw [if_pos hpfle]
    have h3 : checkedSub
        (order.src_amount - order.src_amount * s.protocol_fee_bps / 10000)
        (min order.resolver_fee
          (order.src_amount - order.src_amount * s.protocol_fee_bps / 10000)) =
        some ((order.src_amount - order.src_amount * s.protocol_fee_bps / 10000) -
          min order.resolver_fee
            (order.src_amount - order.src_amount * s.protocol_fee_bps / 10000)) := by
      unfold checkedSub
      rw [if_pos (Nat.min_le_right _ _)]
    have hb : ((order.src_amount - order.src_amount * s.protocol_fee_bps / 10000) -
        min order.resolver_fee
          (order.src_amount - order.src_amount * s.protocol_fee_bps / 10000)) +
        min order.resolver_fee
          (order.src_amount - order.src_amount * s.protocol_fee_bps / 10000) <
        U128 := by
      have hm := Nat.min_le_right order.resolver_fee
        (order.src_amount - order.src_amount * s.protocol_fee_bps / 10000)
      rw [Nat.sub_add_cancel hm]
      have h6 : order.src_amount -
          order.src_amount * s.protocol_fee_bps / 10000 ≤ order.src_amount :=
        Nat.sub_le _ _
      have h7 : order.src_amount ≤ s.total_volume + order.src_amount :=
        Nat.le_add_left _ _
      exact lt_of_le_of_lt (le_trans h6 h7) hvol
    obtain ⟨tl, htl⟩ := payoutTransfers_ok env s order
      ((order.src_amount - order.src_amount * s.protocol_fee_bps / 10000) -
        min order.resolver_fee
          (order.src_amount - order.src_amount * s.protocol_fee_bps / 10000))
      (min order.resolver_fee
        (order.src_amount - order.src_amount * s.protocol_fee_bps / 10000))
      (order.src_amount * s.protocol_fee_bps / 10000) htr hres hb
    have h5 : checkedAdd128 s.total_volume order.src_amount =
        some (s.total_volume + order.src_amount) := by
      unfold checkedAdd128
      rw [if_pos hvol]
    unfold executeSwap executeSwapInternal
    simp only [hp, ho, hst, hndl, hsec, hescok, h1, h2, h3, htl, h5]
    simp
end Fpe

namespace Fpe

theorem execute_success_iff_witness :
    wS2.orders.get wOh = some wLockedOrder ∧
    (∃ r, executeSwap wEnvExec wS2 wOh 77 = .ok r) := by
  refine ⟨by decide, ?_⟩
  exact (execute_success_iff wEnvExec wS2 wOh 77 wLockedOrder (by decide) rfl
    (by decide) (by decide) (fun a b => rfl) (by decide) (by decide)
    (by decide)).1.mpr ⟨by decide, by decide, by decide⟩

/-- C1 counterexample: a `PartialFill` order with the correct secret before
the deadline is rejected with `InvalidOrderStatus`; the claim's iff, which
admits status `PartialFill`, fails on this state. -/
theorem execute_partialfill_rejected :
    ((wS3.orders.get wOh).map (fun o => o.status) = some .PartialFill ∧
     (wS3.orders.get wOh).map (fun o => o.hash_lock_info.hash_lock) =
       some (wEnvExec.hashBytes (encodeSecret 77)) ∧
     (wS3.orders.get wOh).map (fun o => o.time_locks.fill_deadline) = some 100 ∧
     wEnvExec.now ≤ 100) ∧
    executeSwap wEnvExec wS3 wOh 77 = .error .InvalidOrderStatus :=
  ⟨⟨by decide, by decide, by decide, by decide⟩, rfl⟩

/-- C2 (amended): on an unpaused engine with payouts succeeding,
`cancel_order` succeeds iff either the order is `Locked`/`PartialFill` and
(the deadline has passed — any caller — or the caller is the maker), or the
order is `Pending`, the caller is the maker and
`now ≤ private_cancellation`; a `Pending` order past its grace window (even
past the deadline) and every other combination fails with `Unauthorized`. -/
theorem cancel_success_iff (env : Env) (s : EscrowState) (oh : Digest)
    (order : FusionOrder)
    (ho : s.orders.get oh = some order)
    (hp : s.paused = false)
    (htr : ∀ a b, env.transferOk a b = true)
    (hfil : order.filled_amount ≤ order.src_amount) :
    ((∃ r, cancelOrder env s oh = .ok r) ↔
      (((order.status = .Locked ∨ order.status = .PartialFill) ∧
        (order.time_locks.fill_deadline < env.now ∨ env.caller = order.maker)) ∨
       (order.status = .Pending ∧ env.caller = order.maker ∧
        env.now ≤ order.time_locks.private_cancellation))) ∧
    ((cancelDecision order env.caller env.now).1 = false →
      cancelOrder env s oh = .error .Unauthorized) := by
  have herr : (cancelDecision order env.caller env.now).1 = false →
      cancelOrder env s oh = .error .Unauthorized := by
    intro hd
    unfold cancelOrder
    simp [hp, ho, hd]
  refine ⟨?_, herr⟩
  constructor
  · rintro ⟨r, hr⟩
    by_cases hd : (cancelDecision order env.caller env.now).1 = true
    · exact (cancelDecision_true_iff order env.caller env.now).mp hd
    · rw [herr (by simpa using hd)] at hr
      exact Except.noConfusion hr
  · intro hcond
    have hd : (cancelDecision order env.caller env.now).1 = true :=
      (cancelDecision_true_iff order env.caller env.now).mpr hcond
    have h2 : checkedSub order.src_amount order.filled_amount =
        some (order.src_amount - order.filled_amount) := by
      unfold checkedSub
      rw [if_pos hfil]
    have h3 := refundTransfers_ok env order
      (order.src_amount - order.filled_amount) htr
    unfold cancelOrder
    simp only [hp, ho, hd, h2, h3]
    simp

theorem cancel_success_iff_witness :
    wS2.orders.get wOh = some wLockedOrder ∧
    wEnvMaker50.caller = 1 ∧
    (∃ r, cancelOrder wEnvMaker50 wS2 wOh = .ok r) := by
  refine ⟨by decide, rfl, ?_⟩
  exact (cancel_success_iff wEnvMaker50 wS2 wOh wLockedOrder (by decide) rfl
    (fun a b => rfl) (by decide)).1.mpr
    (Or.inl ⟨Or.inl (by decide), Or.inr (by decide)⟩)

/-- C2 counterexample: a `Pending` order whose deadline has passed cannot be
cancelled by a non-maker caller — `cancel_order` returns `Unauthorized` —
refuting "after the deadline succeeds for any caller". -/
theorem cancel_pending_after_deadline_unauthorized :
    ((wS1.orders.get wOh).map (fun o => o.status) = some .Pending ∧
     (wS1.orders.get wOh).map (fun o => o.time_locks.fill_deadline) = some 100 ∧
     wEnvStranger.now = 200 ∧ 100 < 200 ∧
     (wS1.orders.get wOh).map (fun o => o.maker) = some 1 ∧
     wEnvStranger.caller = 9) ∧
    cancelOrder wEnvStranger wS1 wOh = .error .Unauthorized :=
  ⟨⟨by decide, by decide, rfl, by decide, by decide, rfl⟩, rfl⟩

end Fpe

namespace Fpe

/-- C5 (amended): on an unpaused engine with payouts succeeding, cancelling
a `Locked`/`PartialFill` order after its deadline succeeds for any caller
with reason `TimelockExpired`, pays the unfilled `src_amount -
filled_amount` to the maker and the safety deposit to the resolver, and
sets the order's status to `Cancelled` (not `Refunded`). -/
theorem cancel_after_deadline_refunds (env : Env) (s : EscrowState)
    (oh : Digest) (order : FusionOrder)
    (ho : s.orders.get oh = some order)
    (hp : s.paused = false)
    (hst : order.status = .Locked ∨ order.status = .PartialFill)
    (hdl : order.time_locks.fill_deadline < env.now)
    (htr : ∀ a b, env.transferOk a b = true)
    (hfil : order.filled_amount ≤ order.src_amount) :
    cancelDecision order env.caller env.now = (true, .TimelockExpired) ∧
    cancelOrder env s oh = .ok
      ({ s with
        orders := s.orders.insert oh { order with status := OrderStatus.Cancelled }
        active_hash_locks :=
          s.active_hash_locks.remove order.hash_lock_info.hash_lock },
       (if 0 < order.src_amount - order.filled_amount then
          [(order.maker, order.src_amount - order.filled_amount)] else []) ++
        resolverPart order) := by
  have hdec : cancelDecision order env.caller env.now =
      (true, .TimelockExpired) := by
    unfold cancelDecision
    rcases hst with h | h <;> rw [h] <;> simp [hdl]
  refine ⟨hdec, ?_⟩
  have h2 : checkedSub order.src_amount order.filled_amount =
      some (order.src_amount - order.filled_amount) := by
    unfold checkedSub
    rw [if_pos hfil]
  have h3 := refundTransfers_ok env order
    (order.src_amount - order.filled_amount) htr
  unfold cancelOrder
  simp [hp, ho, hdec, h2, h3]

theorem cancel_after_deadline_refunds_witness :
    wS2.orders.get wOh = some wLockedOrder ∧
    wLockedOrder.status = .Locked ∧ (100 : Nat) < 200 ∧
    cancelDecision wLockedOrder wEnvStranger.caller wEnvStranger.now =
      (true, .TimelockExpired) := by
  refine ⟨by decide, by decide, by decide, ?_⟩
  exact (cancel_after_deadline_refunds wEnvStranger wS2 wOh wLockedOrder
    (by decide) rfl (Or.inl (by decide)) (by decide) (fun a b => rfl)
    (by decide)).1

/-- C5 counterexample: any caller can cancel a Locked order past its
deadline, but the committed status is `Cancelled`, not `Refunded`. -/
theorem cancel_after_deadline_status_cancelled :
    ((wS2.orders.get wOh).map (fun o => o.status) = some .Locked ∧
     (wS2.orders.get wOh).map (fun o => o.time_locks.fill_deadline) = some 100 ∧
     wEnvStranger.now = 200 ∧
     (wS2.orders.get wOh).map (fun o => o.maker) = some 1 ∧
     wEnvStranger.caller = 9) ∧
    isOkB (cancelOrder wEnvStranger wS2 wOh) = true ∧
    (wC5state.orders.get wOh).map (fun o => o.status) = some .Cancelled ∧
    OrderStatus.Cancelled ≠ OrderStatus.Refunded :=
  ⟨⟨by decide, by decide, rfl, by decide, rfl⟩, rfl, by decide, by decide⟩

/-- C6 (amended): on an unpaused engine, `execute_partial_fill` on a
`Locked` or `PartialFill` order succeeds iff `hash(secret) = hash_lock` and
`amount ≤ remaining` — the deadline is never checked and `amount = 0` is
accepted; `amount > remaining` is rejected with `InvalidAmount`; on success
`filled_amount` grows by `amount` and the status becomes `Executed` when
`filled_amount + amount ≥ src_amount` (from either status), else
`PartialFill`. -/
theorem partial_fill_success_iff (env : Env) (s : EscrowState) (oh : Digest)
    (amt : Balance) (secret : Nat) (order : FusionOrder)
    (ho : s.orders.get oh = some order)
    (hp : s.paused = false)
    (hst : order.status = .Locked ∨ order.status = .PartialFill)
    (hfil : order.filled_amount ≤ order.src_amount)
    (hsrc : order.src_amount < U128) :
    ((∃ r, executePartialFill env s oh amt secret = .ok r) ↔
      (env.hashBytes (encodeSecret secret) = order.hash_lock_info.hash_lock ∧
       amt ≤ order.src_amount - order.filled_amount)) ∧
    (env.hashBytes (encodeSecret secret) = order.hash_lock_info.hash_lock →
     order.src_amount - order.filled_amount < amt →
     executePartialFill env s oh amt secret = .error .InvalidAmount) ∧
    (∀ s' t, executePartialFill env s oh amt secret = .ok (s', t) →
      s'.orders.get oh = some { order with
        filled_amount := order.filled_amount + amt
        status := if order.src_amount ≤ order.filled_amount + amt
                  then OrderStatus.Executed else OrderStatus.PartialFill }) := by
  have hstc : ¬(order.status ≠ OrderStatus.Locked ∧
      order.status ≠ OrderStatus.PartialFill) := by
    rcases hst with h | h <;> simp [h]
  have h2 : checkedSub order.src_amount order.filled_amount =
      some (order.src_amount - order.filled_amount) := by
    unfold checkedSub
    rw [if_pos hfil]
  have herrAmt : env.hashBytes (encodeSecret secret) =
      order.hash_lock_info.hash_lock →
      order.src_amount - order.filled_amount < amt →
      executePartialFill env s oh amt secret = .error .InvalidAmount := by
    intro hsec hlt
    unfold executePartialFill
    simp [hp, ho, hstc, hsec, h2, hlt]
  have herrSec : env.hashBytes (encodeSecret secret) ≠
      order.hash_lock_info.hash_lock →
      executePartialFill env s oh amt secret = .error .InvalidSecret := by
    intro hsec
    unfold executePartialFill
    simp [hp, ho, hstc, hsec]
  have hok : env.hashBytes (encodeSecret secret) =
      order.hash_lock_info.hash_lock →
      amt ≤ order.src_amount - order.filled_amount →
      executePartialFill env s oh amt secret = .ok
        ({ s with
          orders := s.orders.insert oh { order with
            filled_amount := order.filled_amount + amt
            status := if order.src_amount ≤ order.filled_amount + amt
                      then OrderStatus.Executed else OrderStatus.PartialFill }
          active_hash_locks :=
            if order.src_amount ≤ order.filled_amount + amt then
              s.active_hash_locks.remove order.hash_lock_info.hash_lock
            else s.active_hash_locks }, []) := by
    intro hsec hle
    have hnlt : ¬(order.src_amount - order.filled_amount < amt) := not_lt.mpr hle
    have hbb : order.filled_amount + amt ≤ order.src_amount := by
      have h6 := Nat.add_le_add_left hle order.filled_amount
      rwa [Nat.add_sub_cancel' hfil] at h6
    have hba : order.filled_amount + amt < U128 := lt_of_le_of_lt hbb hsrc
    have h4 : checkedAdd128 order.filled_amount amt =
        some (order.filled_amount + amt) := by
      unfold checkedAdd128
      rw [if_pos hba]
    have h5 : checkedSub order.src_amount (order.filled_amount + amt) =
        some (order.src_amount - (order.filled_amount + amt)) := by
      unfold checkedSub
      rw [if_pos hbb]
    unfold executePartialFill
    simp only [hp, ho, hstc, hsec, hnlt, h2, h4, h5]
    simp
  refine ⟨?_, herrAmt, ?_⟩
  · constructor
    · rintro ⟨r, hr⟩
      by_cases hsec : env.hashBytes (encodeSecret secret) =
          order.hash_lock_info.hash_lock
      · by_cases hle : amt ≤ order.src_amount - order.filled_amount
        · exact ⟨hsec, hle⟩
        · rw [herrAmt hsec (not_le.mp hle)] at hr
          exact Except.noConfusion hr
      · rw [herrSec hsec] at hr
        exact Except.noConfusion hr
    · rintro ⟨hsec, hle⟩
      exact ⟨_, hok hsec hle⟩
  · intro s' t hr
    have hsec : env.hashBytes (encodeSecret secret) =
        order.hash_lock_info.hash_lock := by
      by_contra hsec
      rw [herrSec hsec] at hr
      exact Except.noConfusion hr
    have hle : amt ≤ order.src_amount - order.filled_amount := by
      by_contra hle
      rw [herrAmt hsec (not_le.mp hle)] at hr
      exact Except.noConfusion hr
    rw [hok hsec hle] at hr
    injection hr with hr1
    injection hr1 with hr2 hr3
    subst hr2
    unfold Map.insert Map.get
    simp

/-- C6 counterexample: after the deadline (now = 200 > 100) and with
`amount = 0` (violating `0 < amount`), the partial fill is accepted instead
of being rejected, and the order moves to `PartialFill`. -/
theorem partial_fill_zero_after_deadline_accepted :
    ((wS2.orders.get wOh).map (fun o => o.time_locks.fill_deadline) = some 100 ∧
     wEnvLate.now = 200 ∧ ¬(0 < (0 : Nat))) ∧
    isOkB (executePartialFill wEnvLate wS2 wOh 0 77) = true ∧
    (wC6state.orders.get wOh).map (fun o => o.status) = some .PartialFill :=
  ⟨⟨by decide, rfl, by decide⟩, rfl, by decide⟩

theorem partial_fill_success_iff_witness :
    wS2.orders.get wOh = some wLockedOrder ∧
    (∃ r, executePartialFill wEnvExec wS2 wOh 300 77 = .ok r) := by
  refine ⟨by decide, ?_⟩
  exact (partial_fill_success_iff wEnvExec wS2 wOh 300 77 wLockedOrder
    (by decide) rfl (Or.inl (by decide)) (by decide) (by decide)).1.mpr
    ⟨by decide, by decide⟩

end Fpe

namespace Fpe

/-- C4 (code bug): from a freshly constructed engine, two orders are
created, the first is locked by `deploy_src` under hash lock 500, and a
second `deploy_src` with the same hash lock — although 500 is already in
the active index — succeeds instead of failing with `HashLockAlreadyUsed`,
leaving two distinct `Locked` orders that share one hash lock. -/
theorem deploy_src_hashlock_collision :
    Reachable c4s4 ∧
    c4s3.active_hash_locks.contains 500 = true ∧
    isOkB (deploySrc wEnvLock c4s3 c4imm2 2020) = true ∧
    (2019 : Nat) ≠ 2020 ∧
    (c4s4.orders.get 2019).map (fun o => o.status) = some .Locked ∧
    (c4s4.orders.get 2020).map (fun o => o.status) = some .Locked ∧
    (c4s4.orders.get 2019).map (fun o => o.hash_lock_info.hash_lock) = some 500 ∧
    (c4s4.orders.get 2020).map (fun o => o.hash_lock_info.hash_lock) = some 500 := by
  have h1 : Step wS0 wS1 := ⟨Msg.createOrder wParams, wEnv0, rfl⟩
  have h2 : Step wS1 c4s2 := ⟨Msg.createOrder wParams, wEnv0, rfl⟩
  have h3 : Step c4s2 c4s3 := ⟨Msg.deploySrc c4imm1 2019, wEnvLock, rfl⟩
  have h4 : Step c4s3 c4s4 := ⟨Msg.deploySrc c4imm2 2020, wEnvLock, rfl⟩
  have hreach : Reachable c4s4 :=
    ⟨1, 100, 10, 0, 0,
      Relation.ReflTransGen.head h1 (Relation.ReflTransGen.head h2
        (Relation.ReflTransGen.head h3 (Relation.ReflTransGen.single h4)))⟩
  exact ⟨hreach, rfl, rfl, by decide, by decide, by decide, by decide, by decide⟩

end Fpe
